import Mathlib

/-!
Verification of the transcript Q&A retrieval pipeline (`transcript_qa.py`).

Shallow embedding of the core components:
* the chunker `_create_chunks` (line-by-line accumulation with a soft size cap),
* the similarity ranker `_find_relevant_chunks` (cosine scoring and
  `np.argsort(...)[-top_k:][::-1]` selection),
* the answer orchestration `answer_question` (retrieval, short-circuit on empty
  retrieval, synthesis call with its try/except), and the interactive loop of
  `main` around it.

Python strings are modelled as `List Char` (Python `len` counts code points, as
`List.length` does here).  Exact rational numbers stand in for the numeric
scores; exceptional control flow is modelled with `Except`.
-/

namespace TranscriptQA

/-- Whitespace as recognised by Python `str.strip()` with no argument:
space, tab, newline, carriage return, vertical tab, form feed. -/
def pySpace (c : Char) : Bool :=
  c = ' ' || c = '\t' || c = '\n' || c = '\r' || c = '\x0b' || c = '\x0c'

/-- Leading-whitespace removal, the left half of Python `str.strip()`. -/
def stripLeft (s : List Char) : List Char := s.dropWhile pySpace

/-- Trailing-whitespace removal, the right half of Python `str.strip()`. -/
def stripRight (s : List Char) : List Char := (s.reverse.dropWhile pySpace).reverse

/-- Python `str.strip()`: remove leading and trailing whitespace. -/
def pyStrip (s : List Char) : List Char := stripLeft (stripRight s)

/-- Python `transcript.split('\n')` from `_create_chunks`: split a string into
lines at newline characters; the empty string yields a single empty line, and
consecutive newlines yield empty lines, exactly as in Python. -/
def splitLines : List Char → List (List Char)
  | [] => [[]]
  | c :: cs =>
    if c = '\n' then [] :: splitLines cs
    else
      match splitLines cs with
      | [] => [[c]]
      | l :: ls => (c :: l) :: ls

/-- The timestamp test of `_create_chunks`:
`re.match(r'^\d+:\d+$', line.strip())` — after stripping, one or more digits,
a colon, and one or more digits, with nothing else. -/
def isTimestamp (line : List Char) : Bool :=
  let s := pyStrip line
  let ds := s.takeWhile Char.isDigit
  match s.dropWhile Char.isDigit with
  | ':' :: rest => !ds.isEmpty && !rest.isEmpty && rest.all Char.isDigit
  | _ => false

/-- One loop iteration of `_create_chunks` (lines 107-123 of
`transcript_qa.py`), acting on the state (chunks emitted so far, current
buffer):

* a timestamp line is never appended; it flushes the stripped buffer only when
  the buffer length already exceeds `maxSize` and the stripped buffer is
  nonempty (truthiness of `current_chunk.strip()`);
* any other line is appended as `current_chunk += line + " "`; if the new
  length exceeds `maxSize` and the stripped buffer is nonempty it is flushed
  and the buffer reset — note that when the stripped buffer is empty the
  buffer is *not* reset, exactly as in the source (the reset statement sits
  inside the `if current_chunk.strip():` test). -/
def processLine (maxSize : ℕ) (st : List (List Char) × List Char) (line : List Char) :
    List (List Char) × List Char :=
  if isTimestamp line then
    if maxSize < st.2.length ∧ pyStrip st.2 ≠ [] then (st.1 ++ [pyStrip st.2], [])
    else (st.1, st.2)
  else
    if maxSize < (st.2 ++ line ++ [' ']).length then
      if pyStrip (st.2 ++ line ++ [' ']) ≠ [] then
        (st.1 ++ [pyStrip (st.2 ++ line ++ [' '])], [])
      else (st.1, st.2 ++ line ++ [' '])
    else (st.1, st.2 ++ line ++ [' '])

/-- The chunker `_create_chunks` applied to one transcript: fold
`processLine` over the transcript lines starting from no chunks and an empty
buffer, then append the stripped remaining buffer as a final chunk when it is
nonempty (lines 102-127 of `transcript_qa.py`; the method iterates this per
transcript, appending to a shared chunk list). -/
def createChunks (transcript : List Char) (maxSize : ℕ) : List (List Char) :=
  let st := (splitLines transcript).foldl (processLine maxSize) ([], [])
  if pyStrip st.2 ≠ [] then st.1 ++ [pyStrip st.2] else st.1

/-- Timestamp-stripped content of a line list: what the buffer would
accumulate if no flush ever happened — every non-timestamp line followed by
the single space separator the chunker appends. -/
def linesContent : List (List Char) → List Char
  | [] => []
  | l :: ls => if isTimestamp l then linesContent ls else l ++ [' '] ++ linesContent ls

/-- Timestamp-stripped content of a transcript, with the chunker's own
line separator (a single space after each line). -/
def strippedContent (transcript : List Char) : List Char :=
  linesContent (splitLines transcript)

/-- Characters that survive `filter notSpace` are the non-whitespace content
of a string. -/
def notSpace (c : Char) : Bool := !pySpace c

/-- Total length of a line list as seen by the accumulating buffer: each line
costs its length plus one separator character. -/
def lineSum : List (List Char) → ℕ
  | [] => 0
  | l :: ls => l.length + 1 + lineSum ls

-- Sanity checks against hand-traced runs of the Python code.
example : splitLines ['a', '\n', '\n', 'b'] = [['a'], [], ['b']] := by decide
example : isTimestamp [' ', '0', ':', '2', '5'] = true := by decide
example : isTimestamp ['0', ':'] = false := by decide
example : isTimestamp ['a', '0', ':', '2'] = false := by decide
example : createChunks ['a', '\n', '\n', 'b'] 1 = [['a'], ['b']] := by decide
example : pyStrip [' ', 'a', ' ', ' '] = ['a'] := by decide
example : createChunks [] 5 = [] := by decide
example : strippedContent ['a', '\n', '\n', 'b'] = ['a', ' ', ' ', 'b', ' '] := by decide

/-! Basic lemmas about the Python string primitives. -/

theorem dropWhile_append_of_ne_nil {p : Char → Bool} :
    ∀ {a : List Char} (b : List Char), a.dropWhile p ≠ [] →
      (a ++ b).dropWhile p = a.dropWhile p ++ b := by
  intro a
  induction a with
  | nil => intro b h; exact absurd rfl h
  | cons c cs ih =>
    intro b h
    by_cases hc : p c
    · simp only [List.cons_append, List.dropWhile_cons, hc, if_true] at h ⊢
      exact ih b h
    · simp [List.cons_append, List.dropWhile_cons, hc]

theorem dropWhile_append_of_forall {p : Char → Bool} :
    ∀ {w : List Char} (s : List Char), (∀ c ∈ w, p c = true) →
      (w ++ s).dropWhile p = s.dropWhile p := by
  intro w
  induction w with
  | nil => intro s _; rfl
  | cons c cs ih =>
    intro s h
    have hc : p c = true := h c (by simp)
    simp only [List.cons_append, List.dropWhile_cons, hc, if_true]
    exact ih s fun d hd => h d (by simp [hd])

theorem stripRight_append_space (s : List Char) :
    stripRight (s ++ [' ']) = stripRight s := by
  simp [stripRight, List.reverse_append, List.dropWhile_cons, pySpace]

theorem pyStrip_append_space (s : List Char) : pyStrip (s ++ [' ']) = pyStrip s := by
  simp [pyStrip, stripRight_append_space]

theorem length_stripLeft_le (s : List Char) : (stripLeft s).length ≤ s.length :=
  (List.dropWhile_sublist pySpace).length_le

theorem length_stripRight_le (s : List Char) : (stripRight s).length ≤ s.length := by
  have h := (List.dropWhile_sublist (l := s.reverse) pySpace).length_le
  simpa [stripRight] using h

theorem length_pyStrip_le (s : List Char) : (pyStrip s).length ≤ s.length :=
  le_trans (length_stripLeft_le _) (length_stripRight_le _)

theorem stripRight_eq_nil_iff {s : List Char} :
    stripRight s = [] ↔ ∀ c ∈ s, pySpace c = true := by
  constructor
  · intro h c hc
    have h' : s.reverse.dropWhile pySpace = [] := by
      have := congrArg List.reverse h
      simpa [stripRight] using this
    exact List.dropWhile_eq_nil_iff.mp h' c (by simpa using hc)
  · intro h
    have h' : s.reverse.dropWhile pySpace = [] :=
      List.dropWhile_eq_nil_iff.mpr fun c hc => h c (by simpa using hc)
    simp [stripRight, h']

theorem mem_takeWhile_space {s : List Char} {c : Char} :
    c ∈ s.takeWhile pySpace → pySpace c = true := by
  induction s with
  | nil => intro h; simp at h
  | cons d ds ih =>
    intro h
    by_cases hd : pySpace d
    · simp only [List.takeWhile_cons, hd, if_true, List.mem_cons] at h
      rcases h with h | h
      · exact h ▸ hd
      · exact ih h
    · simp [List.takeWhile_cons, hd] at h

theorem pyStrip_eq_nil_iff {s : List Char} :
    pyStrip s = [] ↔ ∀ c ∈ s, pySpace c = true := by
  constructor
  · intro h c hc
    have hmem : c ∈ s.reverse := by simpa using hc
    have hsplit : s.reverse = s.reverse.takeWhile pySpace ++ s.reverse.dropWhile pySpace :=
      (List.takeWhile_append_dropWhile pySpace s.reverse).symm
    rw [hsplit, List.mem_append] at hmem
    rcases hmem with hm | hm
    · exact mem_takeWhile_space hm
    · have hall : ∀ d ∈ stripRight s, pySpace d = true :=
        List.dropWhile_eq_nil_iff.mp (by simpa [pyStrip, stripLeft] using h)
      exact hall c (by simpa [stripRight] using hm)
  · intro h
    have h' : stripRight s = [] := stripRight_eq_nil_iff.mpr h
    simp [pyStrip, h', stripLeft]

theorem stripRight_space_append {w s : List Char}
    (hs : stripRight s ≠ []) : stripRight (w ++ s) = w ++ stripRight s := by
  have hds : s.reverse.dropWhile pySpace ≠ [] := by
    intro h; exact hs (by simp [stripRight, h])
  have : (s.reverse ++ w.reverse).dropWhile pySpace =
      s.reverse.dropWhile pySpace ++ w.reverse := dropWhile_append_of_ne_nil _ hds
  simp [stripRight, List.reverse_append, this]

theorem pyStrip_space_append {w s : List Char} (hw : ∀ c ∈ w, pySpace c = true) :
    pyStrip (w ++ s) = pyStrip s := by
  by_cases hs : stripRight s = []
  · have hsall : ∀ c ∈ s, pySpace c = true := stripRight_eq_nil_iff.mp hs
    have hall : ∀ c ∈ w ++ s, pySpace c = true := by
      intro c hc
      rcases List.mem_append.mp hc with h | h
      · exact hw c h
      · exact hsall c h
    have h1 : pyStrip (w ++ s) = [] := pyStrip_eq_nil_iff.mpr hall
    have h2 : pyStrip s = [] := pyStrip_eq_nil_iff.mpr hsall
    rw [h1, h2]
  · rw [pyStrip, stripRight_space_append hs, stripLeft,
      dropWhile_append_of_forall _ hw]
    rfl

theorem filter_notSpace_dropWhile (s : List Char) :
    (s.dropWhile pySpace).filter notSpace = s.filter notSpace := by
  induction s with
  | nil => rfl
  | cons c cs ih =>
    by_cases hc : pySpace c
    · have hns : notSpace c = false := by simp [notSpace, hc]
      simp [List.dropWhile_cons, hc, List.filter_cons, hns, ih]
    · simp [List.dropWhile_cons, hc]

theorem filter_notSpace_stripRight (s : List Char) :
    (stripRight s).filter notSpace = s.filter notSpace := by
  have h := filter_notSpace_dropWhile s.reverse
  have := congrArg List.reverse h
  simpa [stripRight, List.filter_reverse] using this

theorem filter_notSpace_pyStrip (s : List Char) :
    (pyStrip s).filter notSpace = s.filter notSpace := by
  rw [pyStrip, stripLeft, filter_notSpace_dropWhile, filter_notSpace_stripRight]

theorem splitLines_ne_nil (t : List Char) : splitLines t ≠ [] := by
  cases t with
  | nil => simp [splitLines]
  | cons c cs =>
    by_cases hc : c = '\n'
    · simp [splitLines, hc]
    · simp only [splitLines, hc, if_false]
      cases splitLines cs <;> simp

theorem lineSum_splitLines (t : List Char) : lineSum (splitLines t) = t.length + 1 := by
  induction t with
  | nil => rfl
  | cons c cs ih =>
    by_cases hc : c = '\n'
    · simp [splitLines, hc, lineSum, ih]; omega
    · simp only [splitLines, hc, if_false]
      cases hsl : splitLines cs with
      | nil => exact absurd hsl (splitLines_ne_nil cs)
      | cons l ls =>
        rw [hsl] at ih
        simp only [lineSum, List.length_cons] at ih ⊢
        omega

/-! Invariants of the chunker fold. -/

/-- Buffer invariant of the chunker loop: whenever the buffer has nonempty
stripped content, its raw length is at most the size cap (a longer buffer is
flushed immediately after the append that crossed the cap; only an
all-whitespace buffer can stay longer, because the reset is guarded by the
truthiness test on `current_chunk.strip()`). -/
def bufOk (m : ℕ) (buf : List Char) : Prop := pyStrip buf ≠ [] → buf.length ≤ m

theorem bufOk_nil (m : ℕ) : bufOk m [] := fun h => absurd rfl h

/-- Every chunk flushed by the size trigger is at most `maxSize` plus the
length of the line whose append crossed the cap. -/
theorem chunk_bound {m : ℕ} {buf l : List Char} (hb : bufOk m buf) :
    (pyStrip (buf ++ l ++ [' '])).length ≤ m + l.length := by
  by_cases hsb : pyStrip buf = []
  · have hall : ∀ c ∈ buf, pySpace c = true := pyStrip_eq_nil_iff.mp hsb
    rw [List.append_assoc, pyStrip_space_append hall, pyStrip_append_space]
    calc (pyStrip l).length ≤ l.length := length_pyStrip_le l
      _ ≤ m + l.length := Nat.le_add_left _ _
  · have hlen : buf.length ≤ m := hb hsb
    rw [pyStrip_append_space]
    calc (pyStrip (buf ++ l)).length ≤ (buf ++ l).length := length_pyStrip_le _
      _ = buf.length + l.length := List.length_append _ _
      _ ≤ m + l.length := by omega

theorem processLine_ts {m : ℕ} {cs : List (List Char)} {buf l : List Char}
    (hts : isTimestamp l = true) (hb : bufOk m buf) :
    processLine m (cs, buf) l = (cs, buf) := by
  have hcond : ¬(m < buf.length ∧ pyStrip buf ≠ []) := by
    rintro ⟨h1, h2⟩
    exact absurd (hb h2) (by omega)
  simp [processLine, hts, hcond]

theorem processLine_flush {m : ℕ} {cs : List (List Char)} {buf l : List Char}
    (hts : isTimestamp l = false) (hlen : m < (buf ++ l ++ [' ']).length)
    (hstrip : pyStrip (buf ++ l ++ [' ']) ≠ []) :
    processLine m (cs, buf) l = (cs ++ [pyStrip (buf ++ l ++ [' '])], []) := by
  unfold processLine
  rw [if_neg (by simp [hts]), if_pos hlen, if_pos hstrip]

theorem processLine_keep {m : ℕ} {cs : List (List Char)} {buf l : List Char}
    (hts : isTimestamp l = false)
    (h : ¬ m < (buf ++ l ++ [' ']).length ∨ pyStrip (buf ++ l ++ [' ']) = []) :
    processLine m (cs, buf) l = (cs, buf ++ l ++ [' ']) := by
  unfold processLine
  rw [if_neg (by simp [hts])]
  rcases h with h | h
  · rw [if_neg h]
  · by_cases h2 : m < (buf ++ l ++ [' ']).length
    · rw [if_pos h2, if_neg (not_not_intro h)]
    · rw [if_neg h2]

/-- Main invariant of the chunker fold: starting from a legal buffer,
(1) the final buffer is again legal, (2) every chunk the fold adds is bounded
by `m` plus the length of one of the processed lines, and (3) the
non-whitespace characters of (emitted chunks plus pending buffer) are exactly
those of the starting state plus the timestamp-stripped content of the
processed lines. -/
theorem foldl_processLine_spec (m : ℕ) :
    ∀ (ls cs : List (List Char)) (buf : List Char), bufOk m buf →
      bufOk m ((ls.foldl (processLine m) (cs, buf)).2)
      ∧ (∀ c ∈ (ls.foldl (processLine m) (cs, buf)).1,
            c ∈ cs ∨ ∃ l ∈ ls, c.length ≤ m + l.length)
      ∧ ((ls.foldl (processLine m) (cs, buf)).1.flatten
            ++ (ls.foldl (processLine m) (cs, buf)).2).filter notSpace
          = (cs.flatten ++ (buf ++ linesContent ls)).filter notSpace
  | [], cs, buf, hb => ⟨hb, fun _ hc => Or.inl hc, by simp [linesContent]⟩
  | l :: ls, cs, buf, hb => by
    rw [List.foldl_cons]
    by_cases hts : isTimestamp l = true
    · rw [processLine_ts hts hb]
      obtain ⟨ihb, ihc, ihf⟩ := foldl_processLine_spec m ls cs buf hb
      refine ⟨ihb, ?_, ?_⟩
      · intro c hc
        rcases ihc c hc with h | ⟨l', hl', hlen⟩
        · exact Or.inl h
        · exact Or.inr ⟨l', List.mem_cons_of_mem _ hl', hlen⟩
      · rw [ihf]; simp [linesContent, hts]
    · have hts' : isTimestamp l = false := by simpa using hts
      by_cases hlen : m < (buf ++ l ++ [' ']).length
      · by_cases hstrip : pyStrip (buf ++ l ++ [' ']) = []
        · -- oversize but all-whitespace: the buffer is kept, not reset
          rw [processLine_keep hts' (Or.inr hstrip)]
          have hb1 : bufOk m (buf ++ l ++ [' ']) := fun h => absurd hstrip h
          obtain ⟨ihb, ihc, ihf⟩ := foldl_processLine_spec m ls cs (buf ++ l ++ [' ']) hb1
          refine ⟨ihb, ?_, ?_⟩
          · intro c hc
            rcases ihc c hc with h | ⟨l', hl', hl2⟩
            · exact Or.inl h
            · exact Or.inr ⟨l', List.mem_cons_of_mem _ hl', hl2⟩
          · rw [ihf]; simp [linesContent, hts', List.append_assoc]
        · -- size-triggered flush
          rw [processLine_flush hts' hlen hstrip]
          obtain ⟨ihb, ihc, ihf⟩ :=
            foldl_processLine_spec m ls (cs ++ [pyStrip (buf ++ l ++ [' '])]) [] (bufOk_nil m)
          refine ⟨ihb, ?_, ?_⟩
          · intro c hc
            rcases ihc c hc with h | ⟨l', hl', hl2⟩
            · rcases List.mem_append.mp h with h1 | h1
              · exact Or.inl h1
              · have hce : c = pyStrip (buf ++ l ++ [' ']) := by simpa using h1
                exact Or.inr ⟨l, List.mem_cons_self _ _, hce ▸ chunk_bound hb⟩
            · exact Or.inr ⟨l', List.mem_cons_of_mem _ hl', hl2⟩
          · rw [ihf]
            simp only [List.flatten_append, List.flatten_cons, List.flatten_nil,
              List.append_nil, linesContent, hts', Bool.false_eq_true, if_false,
              List.filter_append, List.filter_nil, List.nil_append,
              filter_notSpace_pyStrip, List.append_assoc]
      · -- append stays within the cap
        rw [processLine_keep hts' (Or.inl hlen)]
        have hb1 : bufOk m (buf ++ l ++ [' ']) := fun _ => le_of_not_lt hlen
        obtain ⟨ihb, ihc, ihf⟩ := foldl_processLine_spec m ls cs (buf ++ l ++ [' ']) hb1
        refine ⟨ihb, ?_, ?_⟩
        · intro c hc
          rcases ihc c hc with h | ⟨l', hl', hl2⟩
          · exact Or.inl h
          · exact Or.inr ⟨l', List.mem_cons_of_mem _ hl', hl2⟩
        · rw [ihf]; simp [linesContent, hts', List.append_assoc]

/-- Every chunk the chunker emits is at most `maxSize` plus the length of one
of the transcript's lines. -/
theorem createChunks_length_bound {t : List Char} {m : ℕ} :
    ∀ c ∈ createChunks t m, ∃ l ∈ splitLines t, c.length ≤ m + l.length := by
  intro c hc
  obtain ⟨hball, hcall, _⟩ :=
    foldl_processLine_spec m (splitLines t) [] [] (bufOk_nil m)
  have hne : splitLines t ≠ [] := splitLines_ne_nil t
  obtain ⟨l₀, hl₀⟩ := List.exists_mem_of_ne_nil _ hne
  unfold createChunks at hc
  by_cases hfin : pyStrip ((splitLines t).foldl (processLine m) ([], [])).2 = []
  · simp only [hfin, ne_eq, not_true_eq_false, if_false] at hc
    rcases hcall c hc with h | h
    · exact absurd h (List.not_mem_nil c)
    · exact h
  · simp only [hfin, ne_eq, not_false_eq_true, if_true] at hc
    rcases List.mem_append.mp hc with h | h
    · rcases hcall c h with h1 | h1
      · exact absurd h1 (List.not_mem_nil c)
      · exact h1
    · have hce : c = pyStrip ((splitLines t).foldl (processLine m) ([], [])).2 := by
        simpa using h
      have hlen : c.length ≤ m := by
        calc c.length ≤ ((splitLines t).foldl (processLine m) ([], [])).2.length :=
              hce ▸ length_pyStrip_le _
          _ ≤ m := hball hfin
      exact ⟨l₀, hl₀, by omega⟩

/-- The non-whitespace characters of all emitted chunks, in order, are exactly
the non-whitespace characters of the timestamp-stripped content. -/
theorem createChunks_filter (t : List Char) (m : ℕ) :
    ((createChunks t m).flatten).filter notSpace
      = (strippedContent t).filter notSpace := by
  obtain ⟨_, _, hf⟩ := foldl_processLine_spec m (splitLines t) [] [] (bufOk_nil m)
  simp only [List.flatten_nil, List.nil_append] at hf
  unfold createChunks strippedContent
  by_cases hfin : pyStrip ((splitLines t).foldl (processLine m) ([], [])).2 = []
  · have h2 : (((splitLines t).foldl (processLine m) ([], [])).2).filter notSpace = [] := by
      rw [← filter_notSpace_pyStrip, hfin, List.filter_nil]
    simp only [hfin, ne_eq, not_true_eq_false, if_false]
    rw [← hf, List.filter_append, h2, List.append_nil]
  · simp only [hfin, ne_eq, not_false_eq_true, if_true]
    rw [← hf, List.flatten_append, List.flatten_cons, List.flatten_nil, List.append_nil,
      List.filter_append, List.filter_append, filter_notSpace_pyStrip]

/-- When no flush can ever trigger (the whole line budget fits under the cap),
the fold just accumulates the timestamp-stripped content. -/
theorem foldl_processLine_small (m : ℕ) :
    ∀ (ls cs : List (List Char)) (buf : List Char), buf.length + lineSum ls ≤ m →
      ls.foldl (processLine m) (cs, buf) = (cs, buf ++ linesContent ls)
  | [], cs, buf, _ => by simp [linesContent]
  | l :: ls, cs, buf, h => by
    have h' : buf.length + (l.length + 1 + lineSum ls) ≤ m := h
    rw [List.foldl_cons]
    by_cases hts : isTimestamp l = true
    · have hb : bufOk m buf := fun _ => by omega
      rw [processLine_ts hts hb, foldl_processLine_small m ls cs buf (by omega)]
      simp [linesContent, hts]
    · have hts' : isTimestamp l = false := by simpa using hts
      have hlen : ¬ m < (buf ++ l ++ [' ']).length := by
        simp only [List.length_append, List.length_cons, List.length_nil]
        omega
      rw [processLine_keep hts' (Or.inl hlen), foldl_processLine_small m ls cs (buf ++ l ++ [' '])
        (by simp only [List.length_append, List.length_cons, List.length_nil]; omega)]
      simp [linesContent, hts', List.append_assoc]

/-- A transcript strictly shorter than the cap yields the stripped
timestamp-stripped content as its only chunk — or no chunk at all when that
content is all whitespace. -/
theorem createChunks_small {t : List Char} {m : ℕ} (h : t.length < m) :
    createChunks t m
      = if pyStrip (strippedContent t) = [] then [] else [pyStrip (strippedContent t)] := by
  have hsum : lineSum (splitLines t) ≤ m := by
    rw [lineSum_splitLines]; omega
  have hfold := foldl_processLine_small m (splitLines t) [] []
    (by simpa using hsum)
  unfold createChunks strippedContent
  rw [hfold]
  by_cases h2 : pyStrip (linesContent (splitLines t)) = [] <;>
    simp [h2, strippedContent]

/-! Similarity computation and ranker (`_find_relevant_chunks`). -/

/-- Dot product `np.dot` of two vectors of rationals. -/
def dotProd (u v : List ℚ) : ℚ := (List.zipWith (fun a b => a * b) u v).sum

/-- Squared Euclidean norm: the square of `np.linalg.norm v`.  The real norm
is its square root and vanishes exactly when this rational vanishes. -/
def normSq (v : List ℚ) : ℚ := dotProd v v

/-- Exact representation of the score computed at lines 162-164 of
`transcript_qa.py`: the numerator `np.dot(q, v)` together with the square of
the denominator `np.linalg.norm(q) * np.linalg.norm(v)`.  The pair determines
the real value (numerator divided by the square root of `denSq`) exactly. -/
structure SimValue where
  num : ℚ
  denSq : ℚ
  deriving DecidableEq

/-- The similarity computation of `_find_relevant_chunks`:
`np.dot(q, v) / (np.linalg.norm(q) * np.linalg.norm(v))` with **no guard
against a zero denominator**.  When either vector has zero norm the division
is `0.0/0.0`, which numpy evaluates to NaN (emitting a RuntimeWarning, not
raising): modelled as `none`, no numeric score.  Otherwise the exact value is
returned. -/
def cosineSimilarity (q v : List ℚ) : Option SimValue :=
  if normSq q = 0 ∨ normSq v = 0 then none
  else some ⟨dotProd q v, normSq q * normSq v⟩

/-- Comparison used to model `np.argsort` on the similarity list: index `i`
precedes index `j` when its score is smaller, and on equal scores when
`i ≤ j` (a stable ascending sort is exactly a sort by this linear order).
`np.argsort` with its default kind runs a plain stable insertion sort on
inputs of length at most 16 (its quicksort only partitions while
`pr - pl = n - 1` exceeds `SMALL_QUICKSORT = 15`), so on such inputs the
program sorts by exactly this order; on longer inputs the introsort is not
stable and the order *within a tied run* is left unspecified by the
program. -/
def rankLE (scores : List ℚ) (i j : ℕ) : Prop :=
  scores.getD i 0 < scores.getD j 0 ∨ (scores.getD i 0 = scores.getD j 0 ∧ i ≤ j)

instance (scores : List ℚ) : DecidableRel (rankLE scores) := fun i j => by
  unfold rankLE; infer_instance

instance (scores : List ℚ) : IsTotal ℕ (rankLE scores) where
  total i j := by
    unfold rankLE
    rcases lt_trichotomy (scores.getD i 0) (scores.getD j 0) with h | h | h
    · exact Or.inl (Or.inl h)
    · rcases Nat.le_total i j with hij | hij
      · exact Or.inl (Or.inr ⟨h, hij⟩)
      · exact Or.inr (Or.inr ⟨h.symm, hij⟩)
    · exact Or.inr (Or.inl h)

instance (scores : List ℚ) : IsTrans ℕ (rankLE scores) where
  trans i j k hij hjk := by
    unfold rankLE at hij hjk ⊢
    rcases hij with h1 | ⟨h1, h1'⟩ <;> rcases hjk with h2 | ⟨h2, h2'⟩
    · exact Or.inl (h1.trans h2)
    · exact Or.inl (lt_of_lt_of_eq h1 h2)
    · exact Or.inl (lt_of_eq_of_lt h1 h2)
    · exact Or.inr ⟨h1.trans h2, h1'.trans h2'⟩

/-- Model of `np.argsort(similarities)`: the index list `0 .. n-1` sorted by
ascending score, stably.  The model coincides with `np.argsort` exactly on
score lists of length at most 16 (numpy's insertion-sort branch, which is
stable); on longer lists numpy's default introsort still returns a
permutation of `0 .. n-1` in ascending score order, but the order within a
run of tied scores is unspecified, so the model fixes one admissible tie
order there.  Results proved below therefore depend on the tie order only
under a `length ≤ 16` hypothesis; the permutation and ascending-score facts
hold for every sort kind. -/
def argsort (scores : List ℚ) : List ℕ :=
  List.insertionSort (rankLE scores) (List.range scores.length)

/-- Python slice `xs[-k:]`: the last `k` elements of the list — except that
for `k = 0` the slice `xs[-0:]` is `xs[0:]`, the whole list. -/
def sliceLast {α : Type} (xs : List α) (k : ℕ) : List α :=
  if k = 0 then xs else xs.drop (xs.length - k)

/-- The selection `np.argsort(similarities)[-top_k:][::-1]` of line 168 of
`transcript_qa.py`. -/
def topIndices (scores : List ℚ) (k : ℕ) : List ℕ :=
  (sliceLast (argsort scores) k).reverse

/-- Lines 170-174: the list of `(chunk text, score)` pairs returned by
`_find_relevant_chunks`, one pair per selected index, reading the chunk list
and the score list at the same position. -/
def findRelevantChunksSel (chunks : List (List Char)) (scores : List ℚ) (k : ℕ) :
    List (List Char × ℚ) :=
  (topIndices scores k).map fun i => (chunks.getD i [], scores.getD i 0)

-- Sanity checks for the ranker model.
example : argsort [(1 : ℚ), 1] = [0, 1] := by decide
example : topIndices [(1 : ℚ), 1] 2 = [1, 0] := by decide
example : topIndices [(1 : ℚ), 2, 3, 4] 2 = [3, 2] := by decide
example : topIndices [(1 : ℚ), 2] 0 = [1, 0] := by decide
example : cosineSimilarity [0, 0, 0] [1, 2, 3] = none := by
  norm_num [cosineSimilarity, normSq, dotProd]

theorem length_argsort (scores : List ℚ) : (argsort scores).length = scores.length := by
  rw [argsort, (List.perm_insertionSort _ _).length_eq, List.length_range]

theorem topIndices_length {k : ℕ} (scores : List ℚ) (hk : 1 ≤ k) :
    (topIndices scores k).length = min k scores.length := by
  unfold topIndices sliceLast
  rw [if_neg (by omega), List.length_reverse, List.length_drop, length_argsort]
  omega

theorem topIndices_nil (k : ℕ) : topIndices [] k = [] := by
  unfold topIndices sliceLast argsort
  simp

theorem nodup_topIndices (scores : List ℚ) (k : ℕ) : (topIndices scores k).Nodup := by
  have h1 : (argsort scores).Nodup :=
    (List.perm_insertionSort (rankLE scores) (List.range scores.length)).symm.nodup
      (List.nodup_range _)
  have h2 : (sliceLast (argsort scores) k).Nodup := by
    unfold sliceLast
    split
    · exact h1
    · exact h1.sublist (List.drop_sublist _ _)
  exact List.nodup_reverse.mpr h2

theorem pairwise_topIndices (scores : List ℚ) (k : ℕ) :
    (topIndices scores k).Pairwise (fun i j => rankLE scores j i) := by
  have h1 : (argsort scores).Pairwise (rankLE scores) :=
    List.sorted_insertionSort (rankLE scores) (List.range scores.length)
  have h2 : (sliceLast (argsort scores) k).Pairwise (rankLE scores) := by
    unfold sliceLast
    split
    · exact h1
    · exact h1.sublist (List.drop_sublist _ _)
  exact List.pairwise_reverse.mpr h2

theorem pairwise_topIndices_le (scores : List ℚ) (k : ℕ) :
    (topIndices scores k).Pairwise (fun i j => scores.getD j 0 ≤ scores.getD i 0) := by
  refine (pairwise_topIndices scores k).imp ?_
  intro i j h
  rcases h with h | ⟨h, _⟩
  · exact le_of_lt h
  · exact le_of_eq h

/-! Embedding step (`_embed_chunks`) and answer orchestration
(`answer_question`, plus the loop in `main`). -/

/-- Modelled from the spec: the external embedding capability (spec section 6,
`embed(batch of strings) → batch of fixed-dimension vectors`), whose output
vectors are associated 1:1 and by position with the input strings (spec
section 3).  The capability is represented by a per-string function `f`; a
batch call maps `f` over the batch.  The concrete implementation
(`SentenceTransformer.encode`) is a third-party black box outside this
repository. -/
def encodeBatch (f : List Char → List ℚ) (batch : List (List Char)) : List (List ℚ) :=
  batch.map f

/-- The corpus embedding step `_embed_chunks` (lines 136-142):
`self.chunk_embeddings = self.embedding_model.encode(self.chunks)` — a single
batch call over the whole chunk list, with no reordering of either container
afterwards. -/
def embedChunks (f : List Char → List ℚ) (chunks : List (List Char)) : List (List ℚ) :=
  encodeBatch f chunks

theorem getD_map_of_lt (f : List Char → List ℚ) :
    ∀ (l : List (List Char)) (i : ℕ), i < l.length →
      (l.map f).getD i [] = f (l.getD i [])
  | [], i, h => absurd h (by simp)
  | _ :: _, 0, _ => rfl
  | c :: cs, i + 1, h => by
    simpa using getD_map_of_lt f cs i (by simpa using h)

/-- The fixed reply of `answer_question` when retrieval returns no chunks
(line 193). -/
def noInfoMsg : List Char :=
  ("I couldn\x27t find any relevant information in the transcripts " ++
    "to answer your question.").toList

/-- The error text head used by the `except`/non-200 branches of
`answer_question` and by the loop in `main`: `"Error generating answer: "`. -/
def errMsgHead : List Char := "Error generating answer: ".toList

/-- An HTTP reply from the synthesis endpoint, reduced to what the code
reads: the status code and the generated text extracted from the JSON body
(`result.get("response", "")`). -/
structure HttpReply where
  status : ℕ
  body : List Char

/-- Quote characters of the cleanup pattern: double quote and single quote. -/
def isQuote (c : Char) : Bool := c = Char.ofNat 34 || c = Char.ofNat 39

/-- Removal of one leading quote: the anchored alternative of the pattern. -/
def dropLeadQuote : List Char → List Char
  | [] => []
  | c :: cs => if isQuote c then cs else c :: cs

/-- Removal of one trailing quote: the end-anchored alternative. -/
def dropTrailQuote (s : List Char) : List Char :=
  (dropLeadQuote s.reverse).reverse

/-- Lines 228-231: `answer = result.get("response", "").strip()` followed by
the `re.sub` removing one leading and one trailing quote character. -/
def cleanupAnswer (body : List Char) : List Char :=
  dropTrailQuote (dropLeadQuote (pyStrip body))

/-- The per-query part of `_find_relevant_chunks` (lines 144-174): the call
`self.embedding_model.encode([question])` goes to the external embedding
capability and may raise; `_find_relevant_chunks` has no try/except, so a
failure propagates to the caller.  On success the similarity list is computed
against the cached chunk embeddings (abstracted here as `scores`, one score
per chunk) and the argsort selection runs on it. -/
def findRelevantChunksE (embedQ : Except (List Char) Unit)
    (chunks : List (List Char)) (scores : List ℚ) (k : ℕ) :
    Except (List Char) (List (List Char × ℚ)) :=
  match embedQ with
  | .error e => .error e
  | .ok _ => .ok (findRelevantChunksSel chunks scores k)

/-- Decimal rendering of the status code for `f"... {response.status_code}"`. -/
def natStr (n : ℕ) : List Char := (Nat.repr n).toList

/-- `answer_question` (lines 176-237): retrieve the top 3 chunks — an
embedding failure propagates, since retrieval sits outside any try/except —
short-circuit with `noInfoMsg` when retrieval is empty, and otherwise call
the synthesis endpoint inside try/except: a 200 reply returns the cleaned
generated text, a non-200 reply returns `errMsgHead ++ status`, and a raised
exception is caught and turned into `errMsgHead ++ message`. -/
def answerQuestion (embedQ : Except (List Char) Unit) (chunks : List (List Char))
    (scores : List ℚ) (post : Except (List Char) HttpReply) :
    Except (List Char) (List Char) :=
  match findRelevantChunksE embedQ chunks scores 3 with
  | .error e => .error e
  | .ok rc =>
    if rc.isEmpty then .ok noInfoMsg
    else
      match post with
      | .ok reply =>
        if reply.status = 200 then .ok (cleanupAnswer reply.body)
        else .ok (errMsgHead ++ natStr reply.status)
      | .error e => .ok (errMsgHead ++ e)

/-- One iteration of the interactive loop in `main` (lines 267-277): the
call to `answer_question` sits in a try/except that prints the returned
answer on success and prints `f"Error generating answer: {e}"` when an
exception escapes `answer_question`; either way the loop continues with the
next question. -/
def mainLoopStep (ans : Except (List Char) (List Char)) : List Char :=
  match ans with
  | .ok a => a
  | .error e => errMsgHead ++ e

theorem findRelevantChunksSel_not_empty {chunks : List (List Char)}
    {scores : List ℚ} (h : scores ≠ []) :
    (findRelevantChunksSel chunks scores 3).isEmpty = false := by
  have hlen : (topIndices scores 3).length = min 3 scores.length :=
    topIndices_length scores (by omega)
  have h1 : scores.length ≠ 0 := fun h0 => h (List.length_eq_zero.mp h0)
  have h2 : (findRelevantChunksSel chunks scores 3).length ≠ 0 := by
    unfold findRelevantChunksSel
    rw [List.length_map, hlen]
    omega
  cases hfe : (findRelevantChunksSel chunks scores 3).isEmpty
  · rfl
  · exact absurd (by simpa using (List.isEmpty_iff.mp hfe)) h2

-- Sanity checks for the orchestration model.
example :
    answerQuestion (Except.error "boom".toList) [['a']] [1] (Except.ok ⟨200, "hi".toList⟩)
      = Except.error "boom".toList := rfl
example :
    answerQuestion (Except.ok ()) [['a']] [1] (Except.error "down".toList)
      = Except.ok (errMsgHead ++ "down".toList) := rfl
example :
    answerQuestion (Except.ok ()) [['a']] [1] (Except.ok ⟨500, []⟩)
      = Except.ok (errMsgHead ++ natStr 500) := rfl
example :
    answerQuestion (Except.ok ()) [['a']] [1]
        (Except.ok ⟨200, [' ', Char.ofNat 34, 'o', 'k', Char.ofNat 39]⟩)
      = Except.ok ['o', 'k'] := rfl

/-! Claim theorems. -/

/-- Claim C1, counterexample: scores `[1, 1]` give two chunks with identical
similarity score, yet the selection `np.argsort(scores)[-2:][::-1]` returns
index 1 before index 0 — the chunk with the *higher* original index ranks
first, refuting the claimed ascending-index tie order `[0, 1]`. -/
theorem c1_counterexample :
    [(1 : ℚ), 1].getD 0 0 = [(1 : ℚ), 1].getD 1 0
    ∧ topIndices [(1 : ℚ), 1] 2 = [1, 0]
    ∧ topIndices [(1 : ℚ), 1] 2 ≠ [0, 1] :=
  ⟨rfl, by decide, by decide⟩

/-- Claim C1 (amended): the returned sequence is always ordered by
descending score — that much holds for every `np.argsort` sort kind.  The
claimed deterministic tie rule, however, exists only where the program
specifies one, and there it is the *reverse* of the claim: on score lists of
at most 16 chunks, where `np.argsort` runs its stable insertion-sort branch,
the chunk with the **higher** original index ranks first on a tie (the
ascending argsort output is reversed whole, ties included); on longer lists
numpy's default introsort is not stable and the order within tied runs is
unspecified. -/
theorem c1_descending_score_small_ties_descending_index (scores : List ℚ) (k : ℕ) :
    (topIndices scores k).Pairwise (fun i j => scores.getD j 0 ≤ scores.getD i 0)
    ∧ (scores.length ≤ 16 →
        (topIndices scores k).Pairwise
          (fun i j => scores.getD j 0 < scores.getD i 0
            ∨ (scores.getD j 0 = scores.getD i 0 ∧ j ≤ i))) :=
  ⟨pairwise_topIndices_le scores k, fun _ => pairwise_topIndices scores k⟩

theorem c1_witness :
    ([(1 : ℚ), 1].length ≤ 16)
    ∧ (topIndices [(1 : ℚ), 1] 2).Pairwise
        (fun i j => [(1 : ℚ), 1].getD j 0 < [(1 : ℚ), 1].getD i 0
          ∨ ([(1 : ℚ), 1].getD j 0 = [(1 : ℚ), 1].getD i 0 ∧ j ≤ i)) :=
  ⟨by decide,
    (c1_descending_score_small_ties_descending_index [(1 : ℚ), 1] 2).2 (by decide)⟩

/-- Claim C2 (code bug): on a zero query vector or a zero chunk vector the
similarity denominator `np.linalg.norm(q) * np.linalg.norm(v)` is zero and
the unguarded division `0.0/0.0` evaluates to NaN — `_find_relevant_chunks`
defines no fallback score for this case (the NaN then even sorts as a top
score inside `np.argsort`), so no numeric score exists for these inputs. -/
theorem c2_zero_vector_no_score :
    cosineSimilarity [0, 0, 0] [1, 2, 3] = none
    ∧ cosineSimilarity [1, 2, 3] [0, 0, 0] = none := by
  constructor <;> norm_num [cosineSimilarity, normSq, dotProd]

/-- Claim C3: the chunker flushes as soon as an append crosses the cap and
never batches, so every emitted chunk is at most `maxSize` plus the length of
one of the transcript's lines (the line whose append triggered the flush;
final and timestamp-triggered chunks are at most `maxSize` outright). -/
theorem c3_chunk_soft_cap (t : List Char) (m : ℕ) :
    ∀ c ∈ createChunks t m, ∃ l ∈ splitLines t, c.length ≤ m + l.length :=
  fun c hc => createChunks_length_bound c hc

theorem c3_witness :
    ['a', 'b', 'c'] ∈ createChunks ['a', 'b', 'c'] 1
    ∧ ∃ l ∈ splitLines ['a', 'b', 'c'],
        (['a', 'b', 'c'] : List Char).length ≤ 1 + l.length :=
  ⟨by decide, c3_chunk_soft_cap ['a', 'b', 'c'] 1 ['a', 'b', 'c'] (by decide)⟩

/-- Claim C4, counterexample: transcript `"a\n\nb"` with `max_size = 1`
yields chunks `["a", "b"]` while the timestamp-stripped content is `"a  b "`
(whose strip is `"a  b"`); neither rejoining the chunks with the chunker's
single-space separator (giving `"a b"`) nor plain concatenation (giving
`"ab"`) reconstructs it — whitespace swallowed by the per-chunk `strip()` at
the flush boundary is lost. -/
theorem c4_counterexample :
    createChunks ['a', '\n', '\n', 'b'] 1 = [['a'], ['b']]
    ∧ strippedContent ['a', '\n', '\n', 'b'] = ['a', ' ', ' ', 'b', ' ']
    ∧ List.intercalate [' '] (createChunks ['a', '\n', '\n', 'b'] 1)
        ≠ strippedContent ['a', '\n', '\n', 'b']
    ∧ List.intercalate [' '] (createChunks ['a', '\n', '\n', 'b'] 1)
        ≠ pyStrip (strippedContent ['a', '\n', '\n', 'b'])
    ∧ (createChunks ['a', '\n', '\n', 'b'] 1).flatten
        ≠ pyStrip (strippedContent ['a', '\n', '\n', 'b']) :=
  ⟨by decide, by decide, by decide, by decide, by decide⟩

/-- Claim C4 (amended): concatenating all produced chunks reconstructs the
timestamp-stripped content up to whitespace: the subsequence of
non-whitespace characters is preserved exactly and in order — no
non-whitespace content outside timestamp lines is lost or duplicated — while
whitespace at flush boundaries is dropped by the per-chunk `strip()`, so the
exact separator-faithful string is not reconstructible. -/
theorem c4_content_preserved (t : List Char) (m : ℕ) :
    ((createChunks t m).flatten).filter notSpace
      = (strippedContent t).filter notSpace :=
  createChunks_filter t m

/-- Claim C5, counterexample: for `k = 0` the Python slice `[-0:]` is
`[0:]`, the whole list, so on two chunks the selection returns 2 indices,
not `min 0 2 = 0`. -/
theorem c5_counterexample :
    (topIndices [(1 : ℚ), 2] 0).length = 2
    ∧ min 0 ([(1 : ℚ), 2].length) = 0 :=
  ⟨by decide, rfl⟩

/-- Claim C5 (amended): for every `k ≥ 1` the selection has length
`min k (chunk count)`, and on an empty chunk-embedding matrix the similarity
list is empty and the selection is empty for every `k`, without faulting;
only the degenerate call `k = 0` deviates, returning every chunk instead of
none because the slice `[-0:]` is the whole array. -/
theorem c5_topk_length (scores : List ℚ) (k : ℕ) :
    (∀ k', topIndices ([] : List ℚ) k' = [])
    ∧ (1 ≤ k → (topIndices scores k).length = min k scores.length) :=
  ⟨fun k' => topIndices_nil k', fun hk => topIndices_length scores hk⟩

theorem c5_witness :
    (topIndices ([] : List ℚ) 5 = [])
    ∧ 1 ≤ 2 ∧ (topIndices [(3 : ℚ), 1, 2] 2).length = min 2 3 := by
  refine ⟨(c5_topk_length [] 5).1 5, by decide, ?_⟩
  have h := (c5_topk_length [(3 : ℚ), 1, 2] 2).2 (by decide)
  simpa using h

/-- Claim C6, counterexample: the empty transcript has length `0 < 5 =
max_size` yet produces zero chunks, not exactly one — its single line
contributes only the separator space to the buffer, and whitespace-only
candidates are discarded at the final flush. -/
theorem c6_counterexample :
    (([] : List Char)).length < 5 ∧ createChunks [] 5 = [] :=
  ⟨by decide, by decide⟩

/-- Claim C6 (amended): a transcript shorter than `max_size` produces **at
most** one chunk — exactly the stripped timestamp-stripped content when that
is nonempty, and no chunk at all when the transcript has no non-whitespace
content outside timestamp lines. -/
theorem c6_short_transcript (t : List Char) (m : ℕ) (h : t.length < m) :
    createChunks t m
      = if pyStrip (strippedContent t) = [] then []
        else [pyStrip (strippedContent t)] :=
  createChunks_small h

theorem c6_witness :
    (['h', 'i'] : List Char).length < 10
    ∧ createChunks ['h', 'i'] 10
        = if pyStrip (strippedContent ['h', 'i']) = [] then []
          else [pyStrip (strippedContent ['h', 'i'])] :=
  ⟨by decide, c6_short_transcript ['h', 'i'] 10 (by decide)⟩

/-- Claim C7, counterexample: when the per-query embedding raises,
`answer_question` does **not** catch the failure and does not return a
question-level error message — the exception propagates out of the
orchestration unchanged (the try/except inside `answer_question` only wraps
the synthesis call, and `_find_relevant_chunks` has none). -/
theorem c7_counterexample :
    answerQuestion (Except.error "embedding failed".toList) [['a']] [1]
        (Except.ok ⟨200, "hi".toList⟩)
      = Except.error "embedding failed".toList := rfl

/-- Claim C7 (amended): a per-query embedding failure is not caught by the
answer orchestration — `answer_question` propagates the exception — but the
try/except around the call in `main`'s interactive loop catches it and
reports the question-level message `"Error generating answer: ..."`, so the
session does not crash and the failure is not silent. -/
theorem c7_embed_failure_propagates (e : List Char) (chunks : List (List Char))
    (scores : List ℚ) (post : Except (List Char) HttpReply) :
    answerQuestion (Except.error e) chunks scores post = Except.error e
    ∧ mainLoopStep (answerQuestion (Except.error e) chunks scores post)
        = errMsgHead ++ e :=
  ⟨rfl, rfl⟩

/-- Claim C8: when the answer-synthesis call fails — by a raised exception or
by a non-success status — `answer_question` returns normally (an `ok` value,
never an exception, so the failure is not fatal to the stateless session
loop and later questions are unaffected) carrying the descriptive
per-question string `"Error generating answer: ..."`. -/
theorem c8_synthesis_failure_handled (chunks : List (List Char)) (scores : List ℚ)
    (e : List Char) (reply : HttpReply) (hs : scores ≠ []) (hr : reply.status ≠ 200) :
    answerQuestion (Except.ok ()) chunks scores (Except.error e)
        = Except.ok (errMsgHead ++ e)
    ∧ answerQuestion (Except.ok ()) chunks scores (Except.ok reply)
        = Except.ok (errMsgHead ++ natStr reply.status)
    ∧ mainLoopStep (answerQuestion (Except.ok ()) chunks scores (Except.error e))
        = errMsgHead ++ e := by
  have hne : (findRelevantChunksSel chunks scores 3).isEmpty = false :=
    findRelevantChunksSel_not_empty hs
  refine ⟨?_, ?_, ?_⟩ <;>
    simp [answerQuestion, findRelevantChunksE, hne, mainLoopStep, hr]

theorem c8_witness :
    (([(1 : ℚ)] : List ℚ) ≠ [] ∧ (500 : ℕ) ≠ 200)
    ∧ answerQuestion (Except.ok ()) [['a']] [1] (Except.error "net down".toList)
        = Except.ok (errMsgHead ++ "net down".toList)
    ∧ answerQuestion (Except.ok ()) [['a']] [1] (Except.ok ⟨500, []⟩)
        = Except.ok (errMsgHead ++ natStr 500) := by
  have h := c8_synthesis_failure_handled [['a']] [1] "net down".toList ⟨500, []⟩
    (by decide) (by decide)
  exact ⟨⟨by decide, by decide⟩, h.1, h.2.1⟩

/-- Claim C9: the embedding matrix built by `_embed_chunks` from a chunk list
of length N has exactly N rows, and its i-th row equals the single row of an
embedding call on the i-th chunk alone; both containers are built in one
lockstep batch call and never reordered afterwards, so this by-position
alignment holds for the process lifetime. -/
theorem c9_embedding_alignment (f : List Char → List ℚ) (chunks : List (List Char)) :
    (embedChunks f chunks).length = chunks.length
    ∧ ∀ i, i < chunks.length →
        (embedChunks f chunks).getD i []
          = (encodeBatch f [chunks.getD i []]).getD 0 [] := by
  refine ⟨List.length_map _ _, fun i hi => ?_⟩
  show (chunks.map f).getD i [] = ([chunks.getD i []].map f).getD 0 []
  rw [getD_map_of_lt f chunks i hi]
  rfl

theorem c9_witness :
    1 < ([['a'], ['b', 'c']] : List (List Char)).length
    ∧ (embedChunks (fun s => [(s.length : ℚ)]) [['a'], ['b', 'c']]).getD 1 []
        = (encodeBatch (fun s => [(s.length : ℚ)])
            [[['a'], ['b', 'c']].getD 1 []]).getD 0 [] :=
  ⟨by decide,
    (c9_embedding_alignment (fun s => [(s.length : ℚ)]) [['a'], ['b', 'c']]).2 1 (by decide)⟩

/-- Claim C10: the chunk indices selected by the top-K retrieval are pairwise
distinct — `np.argsort` returns a permutation of the index range, and the
slice and reversal preserve distinctness — so no chunk position is returned
more than once in a single retrieval result. -/
theorem c10_selected_indices_nodup (scores : List ℚ) (k : ℕ) :
    (topIndices scores k).Nodup :=
  nodup_topIndices scores k

end TranscriptQA
